import Mathlib

/-
Verification development for the scrapetools download module
(src/scrapetools/download.py). The Python source is shallowly embedded:
pure control flow becomes Lean functions, the event-loop scheduling of the
batch orchestrator becomes an explicit step relation, byte strings become
lists of naturals, and Python exceptions become Except values. External
collaborators (aiohttp, tqdm, asyncio, the filesystem) are modelled at
their interface boundary, as the specification prescribes.
-/

namespace Scrapetools

/-- Fixed chunk size used by the streaming loop, from CHUNK_SIZE = 2048 in
src/scrapetools/download.py. -/
def CHUNK_SIZE : Nat := 2048

/-- Embedding of the streaming while-loop of _download_one (lines 83-90 of
download.py): repeatedly read up to CHUNK_SIZE bytes from the remaining
response body, stop at the first empty chunk, otherwise advance the byte
progress counter by the chunk length (when show_progress is set) and append
the chunk to the destination file. Returns the final file content and the
final progress-counter value. The transport read of n bytes is modelled as
taking min n (remaining length) bytes, the deterministic reading of a byte
stream. -/
def writeLoop (show_progress : Bool) (body fd : List Nat) (pbar : Nat) :
    List Nat × Nat :=
  let chunk := body.take CHUNK_SIZE
  if h : chunk = [] then (fd, pbar)
  else
    writeLoop show_progress (body.drop CHUNK_SIZE) (fd ++ chunk)
      (if show_progress then pbar + chunk.length else pbar)
termination_by body.length
decreasing_by
  simp only [List.length_drop]
  have hb : body ≠ [] := by
    intro hnil
    apply h
    simp [chunk, hnil]
  have : 0 < body.length := List.length_pos.mpr hb
  have hc : 0 < CHUNK_SIZE := by decide
  omega

/-- The sequence of chunks the streaming loop reads from a body: successive
take CHUNK_SIZE slices until the body is exhausted. -/
def readChunks (body : List Nat) : List (List Nat) :=
  if h : body = [] then []
  else body.take CHUNK_SIZE :: readChunks (body.drop CHUNK_SIZE)
termination_by body.length
decreasing_by
  have : 0 < body.length := List.length_pos.mpr h
  simp only [List.length_drop]
  have hc : 0 < CHUNK_SIZE := by decide
  omega

theorem readChunks_sound (body : List Nat) :
    (∀ c ∈ readChunks body, c.length ≤ CHUNK_SIZE ∧ c ≠ []) ∧
    (readChunks body).flatten = body := by
  induction body using readChunks.induct with
  | case1 =>
    simp [readChunks]
  | case2 body hnil ih =>
    rw [readChunks, dif_neg hnil]
    constructor
    · intro c hc
      rcases List.mem_cons.mp hc with hhd | htl
      · subst hhd
        constructor
        · simpa using List.length_take_le CHUNK_SIZE body
        · intro habs
          have hlen := congrArg List.length habs
          simp [List.length_take] at hlen
          rcases hlen with h1 | h2
          · exact absurd h1 (by decide)
          · exact hnil h2
      · exact ih.1 c htl
    · simp only [List.flatten_cons]
      rw [ih.2]
      exact List.take_append_drop CHUNK_SIZE body

theorem writeLoop_spec (sp : Bool) (body fd : List Nat) (pb : Nat) :
    writeLoop sp body fd pb =
      (fd ++ body, if sp then pb + body.length else pb) := by
  induction body using readChunks.induct generalizing fd pb with
  | case1 =>
    rw [writeLoop]
    simp
  | case2 body hnil ih =>
    rw [writeLoop]
    have htake : body.take CHUNK_SIZE ≠ [] := by
      intro habs
      have hlen := congrArg List.length habs
      simp [List.length_take] at hlen
      rcases hlen with h1 | h2
      · exact absurd h1 (by decide)
      · exact hnil h2
    rw [dif_neg htake]
    rw [ih]
    have h1 : fd ++ body.take CHUNK_SIZE ++ body.drop CHUNK_SIZE = fd ++ body := by
      rw [List.append_assoc, List.take_append_drop]
    have hlen : (body.take CHUNK_SIZE).length + (body.drop CHUNK_SIZE).length
        = body.length := by
      rw [← List.length_append, List.take_append_drop]
    cases sp <;> simp [h1] <;> omega

/-- C4: the single-transfer executor reads the response body in chunks of
at most 2048 bytes, each read chunk is non-empty, the chunks concatenate in
order to the full body (so the written file equals the body), the loop
stops exactly when the body is exhausted, and the byte counter (when
progress is shown) ends at the body length; in particular a 5000 byte body
yields a 5000 byte file and a final counter of 5000. -/
theorem C4_streaming_writes_body (sp : Bool) (body : List Nat) :
    (∀ c ∈ readChunks body, c.length ≤ CHUNK_SIZE ∧ c ≠ []) ∧
    (readChunks body).flatten = body ∧
    writeLoop sp body [] 0 = (body, if sp then body.length else 0) ∧
    writeLoop true (List.replicate 5000 0) [] 0 =
      (List.replicate 5000 0, 5000) := by
  refine ⟨(readChunks_sound body).1, (readChunks_sound body).2, ?_, ?_⟩
  · rw [writeLoop_spec]
    simp
  · rw [writeLoop_spec]
    simp only [List.length_replicate]
    norm_num

/-- Modelled at the interface boundary: the Python builtin int applied to a
string (a language primitive, external to the repository). It strips
surrounding whitespace, accepts an optional sign followed by one or more
decimal digits, and raises ValueError (here: none) on any other input. -/
def pyInt (s : String) : Option Int :=
  let t := ((s.data.dropWhile Char.isWhitespace).reverse.dropWhile
    Char.isWhitespace).reverse
  let isNeg : Bool := t.head?.any (fun c => c.toNat == 45)
  let isSign : Bool := t.head?.any (fun c => c.toNat == 45 || c.toNat == 43)
  let ds := if isSign then t.drop 1 else t
  if ds ≠ [] ∧ ds.all Char.isDigit then
    let n : Nat := ds.foldl (fun n c => n * 10 + (c.toNat - 48)) 0
    some (if isNeg then -(n : Int) else (n : Int))
  else none

/-- Observable effects of one run of _download_one once the session and the
response are available (lines 69-90 of download.py): whether an exception
was raised, whether a byte progress bar was created and with which total
(none meaning unknown), the bytes written to the destination file (none if
the file was never opened), and the final progress-counter value. -/
structure OneRun where
  raised : Option String
  pbarTotal : Option (Option Int)
  file : Option (List Nat)
  pbarBytes : Nat
deriving DecidableEq, Repr

/-- Embedding of _download_one from the progress-bar stage onward: when
show_progress is set and no pbar exists yet, the Content-Length header is
read and converted with int; only a missing header (KeyError) is caught and
mapped to an unknown total, while an unparseable value raises ValueError
before the destination file is opened. When show_progress is not set the
header is never read. Streaming then proceeds per writeLoop. -/
def _download_one_run (show_progress : Bool) (contentLength : Option String)
    (body : List Nat) : OneRun :=
  if show_progress then
    match contentLength with
    | none =>
      let r := writeLoop true body [] 0
      { raised := none, pbarTotal := some none, file := some r.1,
        pbarBytes := r.2 }
    | some s =>
      match pyInt s with
      | none =>
        { raised := some "ValueError", pbarTotal := none, file := none,
          pbarBytes := 0 }
      | some n =>
        let r := writeLoop true body [] 0
        { raised := none, pbarTotal := some (some n), file := some r.1,
          pbarBytes := r.2 }
  else
    let r := writeLoop false body [] 0
    { raised := none, pbarTotal := none, file := some r.1, pbarBytes := r.2 }

/-- C10: with progress shown, only a missing Content-Length header is
treated as an unknown total (the transfer still succeeds); a present but
unparseable header value raises during int conversion and the transfer
fails before any byte is written; with progress off the header is never
consulted, so the run does not depend on it. -/
theorem C10_content_length_handling (body : List Nat) (s : String)
    (hbad : pyInt s = none) :
    (_download_one_run true none body).raised = none ∧
    (_download_one_run true none body).pbarTotal = some none ∧
    _download_one_run true (some s) body =
      { raised := some "ValueError", pbarTotal := none, file := none,
        pbarBytes := 0 } ∧
    (∀ h1 h2 : Option String,
      _download_one_run false h1 body = _download_one_run false h2 body) := by
  refine ⟨rfl, rfl, ?_, fun h1 h2 => rfl⟩
  simp [_download_one_run, hbad]

theorem C10_content_length_handling_witness :
    pyInt "12x" = none ∧
    ((_download_one_run true none [1, 2]).raised = none ∧
    (_download_one_run true none [1, 2]).pbarTotal = some none ∧
    _download_one_run true (some "12x") [1, 2] =
      { raised := some "ValueError", pbarTotal := none, file := none,
        pbarBytes := 0 } ∧
    (∀ h1 h2 : Option String,
      _download_one_run false h1 [1, 2] = _download_one_run false h2 [1, 2])) :=
  ⟨by decide, C10_content_length_handling [1, 2] "12x" (by decide)⟩

/-- Python truthiness of an optional boolean flag (None and False are
falsy), as used by the conditions of download.py. -/
def truthy : Option Bool → Bool
  | none => false
  | some b => b

/-- Python truthiness of an optional string (None and the empty string are
falsy), as used by the assertion not path or os.path.isdir(path). -/
def truthyStr : Option String → Bool
  | none => false
  | some s => !(s == "")

/-- Keys of an association list modelling a Python dict. -/
def keys (d : List (String × Option String)) : List String := d.map Prod.fst

/-- Modelled from the Python dict semantics (a language builtin): inserting
a key keeps insertion order, overwriting the value in place when the key is
already present and appending the new pair otherwise. -/
def dictInsert (d : List (String × Option String)) (k : String)
    (v : Option String) : List (String × Option String) :=
  if k ∈ keys d then d.map (fun pr => if pr.1 = k then (k, v) else pr)
  else d ++ [(k, v)]

/-- Embedding of the dict comprehension on line 103 of download.py: the
mapping sending every url in the list to the shared path. -/
def dictComp (l : List String) (v : Option String) :
    List (String × Option String) :=
  l.foldl (fun d u => dictInsert d u v) []

theorem keys_dictInsert (d : List (String × Option String)) (k : String)
    (v : Option String) :
    keys (dictInsert d k v) = if k ∈ keys d then keys d else keys d ++ [k] := by
  unfold dictInsert
  by_cases h : k ∈ keys d
  · rw [if_pos h, if_pos h]
    unfold keys
    rw [List.map_map]
    apply List.map_congr_left
    intro pr hpr
    by_cases hk : pr.1 = k
    · simp [hk]
    · simp [hk]
  · rw [if_neg h, if_neg h]
    unfold keys
    rw [List.map_append]
    simp

theorem mem_keys_dictInsert (d : List (String × Option String)) (k : String)
    (v : Option String) (x : String) :
    x ∈ keys (dictInsert d k v) ↔ x ∈ keys d ∨ x = k := by
  rw [keys_dictInsert]
  by_cases h : k ∈ keys d
  · rw [if_pos h]
    constructor
    · exact Or.inl
    · rintro (h1 | rfl)
      · exact h1
      · exact h
  · rw [if_neg h]
    simp

theorem nodup_keys_dictInsert (d : List (String × Option String)) (k : String)
    (v : Option String) (h : (keys d).Nodup) :
    (keys (dictInsert d k v)).Nodup := by
  rw [keys_dictInsert]
  by_cases hk : k ∈ keys d
  · rw [if_pos hk]
    exact h
  · rw [if_neg hk]
    refine List.nodup_append.mpr ⟨h, List.nodup_singleton k, ?_⟩
    intro a ha hb
    rw [List.mem_singleton] at hb
    subst hb
    exact hk ha

theorem values_dictInsert (d : List (String × Option String)) (k : String)
    (v : Option String) (hv : ∀ pr ∈ d, pr.2 = v) :
    ∀ pr ∈ dictInsert d k v, pr.2 = v := by
  intro pr hpr
  unfold dictInsert at hpr
  by_cases h : k ∈ keys d
  · rw [if_pos h] at hpr
    rcases List.mem_map.mp hpr with ⟨a, ha, rfl⟩
    by_cases hk : a.1 = k
    · simp [hk]
    · simp [hk]
      exact hv a ha
  · rw [if_neg h] at hpr
    rcases List.mem_append.mp hpr with h1 | h2
    · exact hv pr h1
    · rw [List.mem_singleton] at h2
      subst h2
      rfl

theorem mem_keys_dictComp_go (v : Option String) :
    ∀ (l : List String) (d : List (String × Option String)) (x : String),
      (x ∈ keys (l.foldl (fun d u => dictInsert d u v) d) ↔ x ∈ keys d ∨ x ∈ l)
  | [], d, x => by simp
  | u :: l, d, x => by
    simp only [List.foldl_cons]
    rw [mem_keys_dictComp_go v l (dictInsert d u v) x, mem_keys_dictInsert]
    simp only [List.mem_cons]
    tauto

theorem nodup_keys_dictComp_go (v : Option String) :
    ∀ (l : List String) (d : List (String × Option String)),
      (keys d).Nodup →
      (keys (l.foldl (fun d u => dictInsert d u v) d)).Nodup
  | [], _, h => h
  | u :: l, d, h =>
    nodup_keys_dictComp_go v l (dictInsert d u v) (nodup_keys_dictInsert d u v h)

theorem values_dictComp_go (v : Option String) :
    ∀ (l : List String) (d : List (String × Option String)),
      (∀ pr ∈ d, pr.2 = v) →
      ∀ pr ∈ l.foldl (fun d u => dictInsert d u v) d, pr.2 = v
  | [], _, h => h
  | u :: l, d, h =>
    values_dictComp_go v l (dictInsert d u v) (values_dictInsert d u v h)

theorem mem_keys_dictComp (l : List String) (v : Option String) (x : String) :
    x ∈ keys (dictComp l v) ↔ x ∈ l := by
  unfold dictComp
  rw [mem_keys_dictComp_go]
  simp [keys]

theorem nodup_keys_dictComp (l : List String) (v : Option String) :
    (keys (dictComp l v)).Nodup := by
  unfold dictComp
  exact nodup_keys_dictComp_go v l [] List.nodup_nil

theorem length_dictComp (l : List String) (v : Option String) :
    (dictComp l v).length = l.dedup.length := by
  have hkeys : (keys (dictComp l v)).length = (dictComp l v).length := by
    unfold keys
    exact List.length_map _ _
  rw [← hkeys]
  have hperm : List.Perm (keys (dictComp l v)) l.dedup := by
    rw [List.perm_ext_iff_of_nodup (nodup_keys_dictComp l v) l.nodup_dedup]
    intro x
    rw [mem_keys_dictComp, List.mem_dedup]
  exact hperm.length_eq

/-- C7: normalizing a list of urls with a shared destination yields a
mapping with pairwise distinct keys, whose keys are exactly the urls of the
list, whose every value is the shared destination, and whose size is the
number of distinct urls; in particular a list of M distinct urls yields a
mapping of size exactly M. -/
theorem C7_normalization_mapping (l : List String) (p : Option String) :
    (dictComp l p).length = l.dedup.length ∧
    (∀ x, x ∈ keys (dictComp l p) ↔ x ∈ l) ∧
    (∀ pr ∈ dictComp l p, pr.2 = p) ∧
    (keys (dictComp l p)).Nodup ∧
    (l.Nodup → (dictComp l p).length = l.length) := by
  refine ⟨length_dictComp l p, fun x => mem_keys_dictComp l p x,
    values_dictComp_go p l [] (by simp), nodup_keys_dictComp l p, ?_⟩
  intro hnd
  rw [length_dictComp, List.dedup_eq_self.mpr hnd]

theorem C7_normalization_mapping_witness :
    (["a", "b"] : List String).Nodup ∧
    (dictComp ["a", "b"] (some "d")).length = ["a", "b"].length :=
  ⟨by decide, (C7_normalization_mapping ["a", "b"] (some "d")).2.2.2.2 (by decide)⟩

/-- Input shapes accepted by download_all: an iterable of url strings or a
url-to-path mapping. -/
inductive Urls where
  | strs (l : List String)
  | dict (d : List (String × Option String))
deriving DecidableEq

/-- Embedding of the normalization step of download_all (lines 99-104 of
download.py): when urls is not a dict, assert that path is falsy or a
directory (a failed assert becomes an Except.error) and build the mapping
sending every url to the shared path; a dict input passes through
unchanged. The isdir predicate models os.path.isdir. -/
def normalize_urls (isdir : String → Bool) (urls : Urls)
    (path : Option String) :
    Except String (List (String × Option String)) :=
  match urls with
  | .dict d => .ok d
  | .strs l =>
    if truthyStr path && !(isdir (path.getD "")) then
      .error "path must be a directory for multiple downloads"
    else .ok (dictComp l path)

/-- The invocation a call to the public surface produces: either one
single-transfer executor call or one batch orchestrator call on the
normalized mapping. A synchronous argument-validation failure is the error
case of the surrounding Except. -/
inductive Dispatched where
  | one (url : String) (path : Option String) (sessionProvided : Bool)
      (show_progress : Bool)
  | all (mapping : List (String × Option String)) (sessionProvided : Bool)
      (show_progress : Bool) (max_concurrent : Nat)
deriving DecidableEq

/-- Embedding of download_one (lines 42-47): it forwards its four arguments
to _download_one; no synchronous failure is possible. -/
def download_one (url : String) (path : Option String)
    (sessionProvided : Bool) (show_progress : Bool) : Dispatched :=
  .one url path sessionProvided show_progress

/-- Embedding of download_all (lines 93-105): normalize the input, possibly
raising the assertion, and hand the mapping together with all remaining
arguments to _download_all. -/
def download_all (isdir : String → Bool) (urls : Urls) (path : Option String)
    (sessionProvided : Bool) (show_progress : Bool) (max_concurrent : Nat) :
    Except String Dispatched :=
  match normalize_urls isdir urls path with
  | .error e => .error e
  | .ok m => .ok (.all m sessionProvided show_progress max_concurrent)

/-- Argument shapes accepted by the unified download entry point (line 22
of download.py): a single url string, an iterable of strings, or a
mapping. -/
inductive DlArg where
  | str (s : String)
  | strs (l : List String)
  | dict (d : List (String × Option String))
deriving DecidableEq

/-- Embedding of download (lines 22-33): isinstance(urls, str) dispatches
to download_one with url, path, session and show_progress, dropping
max_concurrent; every other shape goes to download_all with all five
arguments. -/
def download (isdir : String → Bool) (urls : DlArg) (path : Option String)
    (sessionProvided : Bool) (show_progress : Bool) (max_concurrent : Nat) :
    Except String Dispatched :=
  match urls with
  | .str s => .ok (download_one s path sessionProvided show_progress)
  | .strs l =>
    download_all isdir (.strs l) path sessionProvided show_progress
      max_concurrent
  | .dict d =>
    download_all isdir (.dict d) path sessionProvided show_progress
      max_concurrent

/-- Whether the unified argument is a single string, from the words of the
specification for claim C9. -/
def isSingleString : DlArg → Bool
  | .str _ => true
  | _ => false

/-- The string carried by a single-string argument. -/
def argStr : DlArg → String
  | .str s => s
  | _ => ""

/-- The non-string shapes seen as a download_all input. -/
def asUrls : DlArg → Urls
  | .str s => .strs [s]
  | .strs l => .strs l
  | .dict d => .dict d

/-- Stated from the specification words for the refinement claim C9: a
unified download operation that dispatches to download_one when urls is a
single string and to download_all otherwise. -/
def download_spec_dispatch (isdir : String → Bool) (urls : DlArg)
    (path : Option String) (sessionProvided : Bool) (show_progress : Bool)
    (max_concurrent : Nat) : Except String Dispatched :=
  if isSingleString urls then
    .ok (download_one (argStr urls) path sessionProvided show_progress)
  else
    download_all isdir (asUrls urls) path sessionProvided show_progress
      max_concurrent

/-- C9: download dispatches on the type of urls: for a single string it
behaves exactly as download_one, for every value of max_concurrent; for a
non-string input it behaves exactly as download_all with the same
arguments; and the source dispatch coincides with the dispatch the
specification describes on every input. -/
theorem C9_download_dispatch (isdir : String → Bool) (path : Option String)
    (sess sp : Bool) (mc : Nat) :
    (∀ s, download isdir (.str s) path sess sp mc =
      .ok (download_one s path sess sp)) ∧
    (∀ l, download isdir (.strs l) path sess sp mc =
      download_all isdir (.strs l) path sess sp mc) ∧
    (∀ d, download isdir (.dict d) path sess sp mc =
      download_all isdir (.dict d) path sess sp mc) ∧
    (∀ u, download isdir u path sess sp mc =
      download_spec_dispatch isdir u path sess sp mc) := by
  refine ⟨fun s => rfl, fun l => rfl, fun d => rfl, fun u => ?_⟩
  cases u <;> rfl

/-- C5: calling download_all with a non-mapping collection of two or more
urls and a supplied non-directory path (per Python truthiness an empty path
string counts as absent, exactly as the specification treats empty and
absent alike) fails the assert synchronously: the result is an error
produced during normalization, so the batch coroutine is never constructed,
no transfer is dispatched and no network request is issued. The code in
fact raises for any url count; the 2-or-more bound of the claim is kept as
a hypothesis. -/
theorem C5_nondir_path_asserts (isdir : String → Bool) (l : List String)
    (p : String) (sess sp : Bool) (mc : Nat)
    (hlen : 2 ≤ l.length) (hp : p ≠ "") (hdir : isdir p = false) :
    download_all isdir (.strs l) (some p) sess sp mc =
      .error "path must be a directory for multiple downloads" := by
  unfold download_all normalize_urls
  have ht : truthyStr (some p) = true := by
    simp [truthyStr, hp]
  simp [ht, hdir]

theorem C5_nondir_path_asserts_witness :
    2 ≤ (["u1", "u2"] : List String).length ∧ "f" ≠ "" ∧
    (fun _ => false : String → Bool) "f" = false ∧
    download_all (fun _ => false) (.strs ["u1", "u2"]) (some "f") false false
      5 = .error "path must be a directory for multiple downloads" :=
  ⟨by decide, by decide, rfl,
    C5_nondir_path_asserts (fun _ => false) ["u1", "u2"] "f" false false 5
      (by decide) (by decide) rfl⟩

/-- Embedding of the per-file sub-progress resolution of _download_all
(lines 126-131 of download.py), reached when show_progress is truthy, no
overall pbar exists yet and the batch is non-empty: for more than 4 entries
the flag becomes show_sub_progress or False; otherwise it becomes True if
show_progress is None else show_progress. -/
def resolve_sub_progress (show_progress show_sub_progress : Option Bool)
    (total : Nat) : Option Bool :=
  if 4 < total then
    (if truthy show_sub_progress then show_sub_progress else some false)
  else
    (match show_progress with
     | none => some true
     | some b => some b)

/-- C8: with overall progress enabled and sub-progress left unset, the
resolved per-file sub-progress flag is False for a batch of more than 4
entries and True for a batch of 1 to 4 entries. -/
theorem C8_sub_progress_default (total : Nat) (h1 : 1 ≤ total) :
    (4 < total → resolve_sub_progress (some true) none total = some false) ∧
    (total ≤ 4 → resolve_sub_progress (some true) none total = some true) := by
  constructor
  · intro h4
    simp [resolve_sub_progress, h4, truthy]
  · intro h4
    have hnot : ¬ 4 < total := by omega
    simp [resolve_sub_progress, hnot]

theorem C8_sub_progress_default_witness :
    ((4 < 5 → resolve_sub_progress (some true) none 5 = some false) ∧
      (5 ≤ 4 → resolve_sub_progress (some true) none 5 = some true)) ∧
    ((4 < 3 → resolve_sub_progress (some true) none 3 = some false) ∧
      (3 ≤ 4 → resolve_sub_progress (some true) none 3 = some true)) :=
  ⟨C8_sub_progress_default 5 (by decide), C8_sub_progress_default 3 (by decide)⟩

/-- Observable work performed by one call to _download_all (lines 108-162
of download.py): whether the overall progress display was created, whether
an internal client session was created, and how many transfer tasks were
handed to the gather call. -/
structure BatchEffects where
  pbarCreated : Bool
  sessionCreated : Bool
  dispatched : Nat
deriving DecidableEq, Repr

/-- Embedding of the staged control flow of _download_all: with a truthy
show_progress and no pbar yet, an empty mapping returns before any other
work; otherwise the overall pbar is created and the call recurses; next a
missing session is created; finally one bound_download_one task per mapping
entry is handed to asyncio.gather. -/
def _download_all_effects (urls : List (String × Option String))
    (show_progress : Option Bool) (sessionProvided : Bool) : BatchEffects :=
  if truthy show_progress then
    if urls.length = 0 then
      { pbarCreated := false, sessionCreated := false, dispatched := 0 }
    else
      { pbarCreated := true, sessionCreated := !sessionProvided,
        dispatched := urls.length }
  else
    { pbarCreated := false, sessionCreated := !sessionProvided,
      dispatched := urls.length }

/-- C6 counterexample: with an empty mapping, progress reporting disabled
and no session supplied, _download_all still creates an internal client
session on its way to gathering zero tasks, so the call does not shortcut
all work for every setting of show_progress. -/
theorem C6_cex_session_created_without_progress :
    (_download_all_effects [] none false).sessionCreated = true ∧
    (_download_all_effects [] (some false) false).sessionCreated = true :=
  ⟨rfl, rfl⟩

/-- C6 amended: for an empty urls mapping, no transfer is ever dispatched
and no progress display of any kind is created, for every setting of
show_progress; the truthy show_progress path returns before any other work,
while a falsy show_progress still creates an internal session when none is
supplied. -/
theorem C6_empty_short_circuit (show_progress : Option Bool)
    (sessionProvided : Bool) :
    _download_all_effects [] show_progress sessionProvided =
      { pbarCreated := false,
        sessionCreated := !(truthy show_progress) && !sessionProvided,
        dispatched := 0 } := by
  cases show_progress with
  | none => cases sessionProvided <;> rfl
  | some b => cases b <;> cases sessionProvided <;> rfl

/-- Phase of one bound_download_one task of _download_all (lines 149-157 of
download.py): waiting for a semaphore permit, holding a permit while its
download_one body runs, or finished, either normally (after which the
overall pbar update has run) or by an exception propagating out of the
task. -/
inductive Phase where
  | waiting
  | running
  | doneOk
  | doneErr
deriving DecidableEq, Repr

/-- State of one batch orchestration: the free permits of the
asyncio.Semaphore created with max_concurrent, the phase of every task
handed to asyncio.gather, and the value of the overall progress counter. -/
structure Sched where
  permits : Nat
  phases : List Phase
  pbar : Nat
deriving DecidableEq, Repr

/-- Number of entries of a phase list satisfying a predicate. -/
def countp (f : Phase → Bool) : List Phase → Nat
  | [] => 0
  | p :: ps => (if f p then 1 else 0) + countp f ps

def isRunning : Phase → Bool
  | .running => true
  | _ => false

def isOk : Phase → Bool
  | .doneOk => true
  | _ => false

/-- Number of true entries of an outcome list. -/
def countTrue : List Bool → Nat
  | [] => 0
  | b :: bs => (if b then 1 else 0) + countTrue bs

/-- Outcome of the download_one body of task i per the oracle (false
beyond the end of the list). -/
def outcomeAt (outcomes : List Bool) (i : Nat) : Bool := outcomes.getD i false

/-- Initial state of a batch of N dispatched tasks with a semaphore of
max_concurrent K: all permits free, every task waiting, counter 0. -/
def initSched (K N : Nat) : Sched :=
  { permits := K, phases := List.replicate N Phase.waiting, pbar := 0 }

/-- One cooperative scheduling step of the event loop running
_download_all. A waiting task acquires a free permit and starts its
download_one body; a running task finishes, releasing its permit on every
exit path (the async-with), and then advances the overall counter by one
only when show_progress is set and its download_one returned without
raising, exactly as bound_download_one only reaches pbar.update(1) after a
normal return. The oracle outcomes fixes which tasks succeed. -/
inductive Step (sp : Bool) (outcomes : List Bool) : Sched → Sched → Prop where
  | start (s : Sched) (i : Nat) (hi : i < s.phases.length)
      (hw : s.phases.get ⟨i, hi⟩ = Phase.waiting) (hp : 0 < s.permits) :
      Step sp outcomes s
        { permits := s.permits - 1, phases := s.phases.set i Phase.running,
          pbar := s.pbar }
  | finish (s : Sched) (i : Nat) (hi : i < s.phases.length)
      (hr : s.phases.get ⟨i, hi⟩ = Phase.running) :
      Step sp outcomes s
        { permits := s.permits + 1,
          phases := s.phases.set i
            (if outcomeAt outcomes i then Phase.doneOk else Phase.doneErr),
          pbar := if sp && outcomeAt outcomes i then s.pbar + 1 else s.pbar }

/-- Reachability under the scheduling steps of one batch. -/
def Reach (sp : Bool) (outcomes : List Bool) : Sched → Sched → Prop :=
  Relation.ReflTransGen (Step sp outcomes)

theorem countp_set (f : Phase → Bool) :
    ∀ (l : List Phase) (i : Nat) (hi : i < l.length) (b : Phase),
      countp f (l.set i b) + (if f (l.get ⟨i, hi⟩) then 1 else 0) =
        countp f l + (if f b then 1 else 0)
  | [], i, hi, b => absurd hi (by simp)
  | p :: ps, 0, hi, b => by
    simp only [List.set_cons_zero, countp, List.get]
    omega
  | p :: ps, i + 1, hi, b => by
    have ih := countp_set f ps i (Nat.lt_of_succ_lt_succ hi) b
    simp only [List.set_cons_succ, countp, List.get]
    omega

theorem countp_le_length (f : Phase → Bool) :
    ∀ l : List Phase, countp f l ≤ l.length
  | [] => Nat.le_refl 0
  | p :: ps => by
    have ih := countp_le_length f ps
    simp only [countp, List.length_cons]
    cases f p <;> simp <;> omega

theorem countp_replicate (f : Phase → Bool) (a : Phase) :
    ∀ n : Nat, countp f (List.replicate n a) = if f a then n else 0
  | 0 => by simp [countp]
  | n + 1 => by
    rw [List.replicate_succ]
    simp only [countp, countp_replicate f a n]
    cases f a <;> simp <;> omega

theorem get_set_self {α : Type} :
    ∀ (l : List α) (i : Nat) (b : α) (h : i < (l.set i b).length),
      (l.set i b).get ⟨i, h⟩ = b
  | [], i, b, h => absurd h (by simp)
  | a :: l, 0, b, h => rfl
  | a :: l, i + 1, b, h => get_set_self l i b (by simpa using h)

theorem get_set_other {α : Type} :
    ∀ (l : List α) (i j : Nat) (b : α), i ≠ j →
      ∀ (h : j < (l.set i b).length) (h2 : j < l.length),
        (l.set i b).get ⟨j, h⟩ = l.get ⟨j, h2⟩
  | [], i, j, b, hne, h, h2 => absurd h2 (by simp)
  | a :: l, 0, 0, b, hne, h, h2 => absurd rfl hne
  | a :: l, 0, j + 1, b, hne, h, h2 => rfl
  | a :: l, i + 1, 0, b, hne, h, h2 => rfl
  | a :: l, i + 1, j + 1, b, hne, h, h2 =>
    get_set_other l i j b (fun hh => hne (by rw [hh]))
      (by simpa using h) (by simpa using h2)

/-- Inductive invariant of the batch scheduler: the phase list stays
aligned with the outcome oracle, free permits plus running tasks equal the
configured maximum, the overall counter equals the number of successfully
finished tasks when progress is shown and stays 0 otherwise, and every
finished task agrees with its oracle outcome. -/
structure SchedInv (sp : Bool) (outcomes : List Bool) (K : Nat) (s : Sched) :
    Prop where
  len_eq : s.phases.length = outcomes.length
  perm : s.permits + countp isRunning s.phases = K
  pbar_eq : s.pbar = if sp then countp isOk s.phases else 0
  consis : ∀ (i : Nat) (hi : i < s.phases.length),
    (s.phases.get ⟨i, hi⟩ = Phase.doneOk → outcomeAt outcomes i = true) ∧
    (s.phases.get ⟨i, hi⟩ = Phase.doneErr → outcomeAt outcomes i = false)

theorem schedInv_init (sp : Bool) (outcomes : List Bool) (K : Nat) :
    SchedInv sp outcomes K (initSched K outcomes.length) := by
  constructor
  · simp [initSched]
  · simp [initSched, countp_replicate, isRunning]
  · simp [initSched, countp_replicate, isOk]
  · intro i hi
    have hw : (initSched K outcomes.length).phases.get ⟨i, hi⟩ =
        Phase.waiting := by
      simp [initSched]
    constructor
    · intro habs
      rw [hw] at habs
      cases habs
    · intro habs
      rw [hw] at habs
      cases habs

theorem schedInv_step (sp : Bool) (outcomes : List Bool) (K : Nat)
    (s t : Sched) (hst : Step sp outcomes s t)
    (hinv : SchedInv sp outcomes K s) : SchedInv sp outcomes K t := by
  have hperm := hinv.perm
  have hpbar := hinv.pbar_eq
  cases hst with
  | start i hi hw hp =>
    have hrun := countp_set isRunning s.phases i hi Phase.running
    rw [hw] at hrun
    simp [isRunning] at hrun
    have hok := countp_set isOk s.phases i hi Phase.running
    rw [hw] at hok
    simp [isOk] at hok
    refine ⟨by simpa using hinv.len_eq, ?_, ?_, ?_⟩
    · show s.permits - 1 + countp isRunning (s.phases.set i Phase.running) = K
      omega
    · show s.pbar = if sp then countp isOk (s.phases.set i Phase.running) else 0
      rw [hpbar]
      cases sp
      · simp
      · simp
        omega
    · intro j hj
      show ((s.phases.set i Phase.running).get ⟨j, hj⟩ = Phase.doneOk →
          outcomeAt outcomes j = true) ∧
        ((s.phases.set i Phase.running).get ⟨j, hj⟩ = Phase.doneErr →
          outcomeAt outcomes j = false)
      by_cases hij : i = j
      · subst hij
        rw [get_set_self s.phases i Phase.running hj]
        exact ⟨(fun habs => nomatch habs), fun habs => nomatch habs⟩
      · have hj2 : j < s.phases.length := by simpa using hj
        rw [get_set_other s.phases i j Phase.running hij hj hj2]
        exact hinv.consis j hj2
  | finish i hi hr =>
    have hrun := countp_set isRunning s.phases i hi
      (if outcomeAt outcomes i then Phase.doneOk else Phase.doneErr)
    rw [hr] at hrun
    have hok := countp_set isOk s.phases i hi
      (if outcomeAt outcomes i then Phase.doneOk else Phase.doneErr)
    rw [hr] at hok
    refine ⟨by simpa using hinv.len_eq, ?_, ?_, ?_⟩
    · show s.permits + 1 + countp isRunning (s.phases.set i
        (if outcomeAt outcomes i then Phase.doneOk else Phase.doneErr)) = K
      by_cases ho : outcomeAt outcomes i = true
      · simp [ho, isRunning] at hrun ⊢
        omega
      · simp [ho, isRunning] at hrun ⊢
        omega
    · show (if sp && outcomeAt outcomes i then s.pbar + 1 else s.pbar) =
        if sp then countp isOk (s.phases.set i
          (if outcomeAt outcomes i then Phase.doneOk else Phase.doneErr))
        else 0
      by_cases ho : outcomeAt outcomes i = true
      · simp [ho, isOk] at hok
        cases sp
        · simpa using hpbar
        · rw [hpbar]
          simp [ho]
          omega
      · simp [ho, isOk] at hok
        cases sp
        · simpa using hpbar
        · rw [hpbar]
          simp [ho]
          omega
    · intro j hj
      show ((s.phases.set i
          (if outcomeAt outcomes i then Phase.doneOk else Phase.doneErr)).get
            ⟨j, hj⟩ = Phase.doneOk → outcomeAt outcomes j = true) ∧
        ((s.phases.set i
          (if outcomeAt outcomes i then Phase.doneOk else Phase.doneErr)).get
            ⟨j, hj⟩ = Phase.doneErr → outcomeAt outcomes j = false)
      by_cases hij : i = j
      · subst hij
        rw [get_set_self s.phases i _ hj]
        by_cases ho : outcomeAt outcomes i = true
        · rw [if_pos ho]
          exact ⟨fun _ => ho, fun habs => nomatch habs⟩
        · rw [if_neg ho]
          exact ⟨(fun habs => nomatch habs), fun _ => by simpa using ho⟩
      · have hj2 : j < s.phases.length := by simpa using hj
        rw [get_set_other s.phases i j _ hij hj hj2]
        exact hinv.consis j hj2

theorem schedInv_reach (sp : Bool) (outcomes : List Bool) (K : Nat)
    (s : Sched) (h : Reach sp outcomes (initSched K outcomes.length) s) :
    SchedInv sp outcomes K s := by
  induction h with
  | refl => exact schedInv_init sp outcomes K
  | tail hr hs ih => exact schedInv_step sp outcomes K _ _ hs ih

/-- C3: in every state reachable by a batch run of N dispatched transfers
with max_concurrent K, the number of concurrently executing download_one
bodies is at most min K N, the free permits and the running tasks always
sum to exactly K (so the count of held permits equals the running tasks,
never exceeds K, and, being a natural number, never goes negative), and the
free permits never exceed K. -/
theorem C3_semaphore_bound (sp : Bool) (outcomes : List Bool) (K : Nat)
    (s : Sched)
    (h : Reach sp outcomes (initSched K outcomes.length) s) :
    countp isRunning s.phases ≤ min K outcomes.length ∧
    s.permits + countp isRunning s.phases = K ∧ s.permits ≤ K := by
  have hinv := schedInv_reach sp outcomes K s h
  have hperm := hinv.perm
  have hlen := countp_le_length isRunning s.phases
  rw [hinv.len_eq] at hlen
  refine ⟨le_min (by omega) hlen, hperm, by omega⟩

theorem C3_semaphore_bound_witness :
    countp isRunning (initSched 2 1).phases ≤ min 2 1 ∧
    (initSched 2 1).permits + countp isRunning (initSched 2 1).phases = 2 ∧
    (initSched 2 1).permits ≤ 2 :=
  C3_semaphore_bound false [true] 2 (initSched 2 1) Relation.ReflTransGen.refl

theorem outcomeAt_cons_succ (o : Bool) (os : List Bool) (i : Nat) :
    outcomeAt (o :: os) (i + 1) = outcomeAt os i := rfl

/-- Prepend one already finished head task and a progress offset to a
scheduler state, used to lift a run of the tail tasks into a run of the
whole batch. -/
def consSt (p : Phase) (c : Nat) (s : Sched) : Sched :=
  { permits := s.permits, phases := p :: s.phases, pbar := c + s.pbar }

theorem step_cons (sp o : Bool) (os : List Bool) (p : Phase) (c : Nat)
    (s t : Sched) (h : Step sp os s t) :
    Step sp (o :: os) (consSt p c s) (consSt p c t) := by
  cases h with
  | start i hi hw hp =>
    have hi' : i + 1 < (consSt p c s).phases.length := Nat.succ_lt_succ hi
    have hw' : (consSt p c s).phases.get ⟨i + 1, hi'⟩ = Phase.waiting := hw
    exact Step.start (consSt p c s) (i + 1) hi' hw' hp
  | finish i hi hr =>
    have hi' : i + 1 < (consSt p c s).phases.length := Nat.succ_lt_succ hi
    have hr' : (consSt p c s).phases.get ⟨i + 1, hi'⟩ = Phase.running := hr
    have h2 := @Step.finish sp (o :: os) (consSt p c s) (i + 1) hi' hr'
    convert h2 using 1
    cases hb : sp && outcomeAt os i <;>
      simp [consSt, outcomeAt_cons_succ, List.set_cons_succ, hb] <;> omega

theorem reach_cons (sp o : Bool) (os : List Bool) (p : Phase) (c : Nat)
    (s t : Sched) (h : Reach sp os s t) :
    Reach sp (o :: os) (consSt p c s) (consSt p c t) := by
  induction h with
  | refl => exact Relation.ReflTransGen.refl
  | tail hr hs ih =>
    exact Relation.ReflTransGen.tail ih (step_cons sp o os p c _ _ hs)

/-- The fully finished state of one batch run: every task done according to
its oracle outcome, all permits back, and the overall counter at the number
of successes when progress is shown. -/
def finalSched (sp : Bool) (K : Nat) (outcomes : List Bool) : Sched :=
  { permits := K,
    phases := outcomes.map (fun o => if o then Phase.doneOk else Phase.doneErr),
    pbar := if sp then countTrue outcomes else 0 }

theorem reach_finalSched (sp : Bool) (K : Nat) (hK : 0 < K) :
    ∀ outcomes : List Bool,
      Reach sp outcomes (initSched K outcomes.length)
        (finalSched sp K outcomes)
  | [] => by
    cases sp
    · exact Relation.ReflTransGen.refl
    · exact Relation.ReflTransGen.refl
  | o :: os => by
    have hK1 : K - 1 + 1 = K := Nat.succ_pred_eq_of_pos hK
    have IH := reach_finalSched sp K hK os
    have lift := reach_cons sp o os (if o then Phase.doneOk else Phase.doneErr)
      (if sp && o then 1 else 0) _ _ IH
    have hstart : consSt (if o then Phase.doneOk else Phase.doneErr)
        (if sp && o then 1 else 0) (initSched K os.length) =
        (⟨K, (if o then Phase.doneOk else Phase.doneErr) ::
          List.replicate os.length Phase.waiting,
          if sp && o then 1 else 0⟩ : Sched) := by
      simp [consSt, initSched]
    have hend : consSt (if o then Phase.doneOk else Phase.doneErr)
        (if sp && o then 1 else 0) (finalSched sp K os) =
        finalSched sp K (o :: os) := by
      cases sp <;> cases o <;> simp [consSt, finalSched, countTrue]
    rw [hstart, hend] at lift
    have hi0 : 0 < (initSched K (o :: os).length).phases.length := by
      simp [initSched]
    have hw0 : (initSched K (o :: os).length).phases.get ⟨0, hi0⟩ =
        Phase.waiting := rfl
    have st1 := @Step.start sp (o :: os) (initSched K (o :: os).length) 0 hi0
      hw0 hK
    have st2 := @Step.finish sp (o :: os)
      (⟨K - 1, Phase.running :: List.replicate os.length Phase.waiting,
        0⟩ : Sched) 0 (Nat.succ_pos _) rfl
    rw [hK1] at st2
    exact Relation.ReflTransGen.head st1 (Relation.ReflTransGen.head st2 lift)

/-- The result each bound_download_one task hands to asyncio.gather: a
normal return for a successful transfer, a raised exception otherwise. -/
def taskResults (outcomes : List Bool) : List (Except String Unit) :=
  outcomes.map (fun o => if o then Except.ok () else Except.error
    "transport failure")

/-- First raised exception of a task list, in task order. -/
def firstError : List (Except String Unit) → Option String
  | [] => none
  | Except.error e :: _ => some e
  | Except.ok _ :: rs => firstError rs

/-- Modelled from the documented semantics of asyncio.gather (external
library, called on line 159 of download.py): with return_exceptions set,
exceptions of the awaited tasks are collected into the result list in place
of their results and the gather call itself returns normally; without it
the first raised exception propagates out of gather. -/
def gather (return_exceptions : Bool)
    (results : List (Except String Unit)) :
    Except String (List (Except String Unit)) :=
  if return_exceptions then Except.ok results
  else
    match firstError results with
    | none => Except.ok results
    | some e => Except.error e

/-- C2: _download_all gathers its tasks with return_exceptions, so for
every outcome assignment the batch call completes normally with every
failure captured in the result list (first conjunct), and with at least one
permit every dispatched task can still be driven to its own terminal state,
successes finishing as doneOk regardless of how many siblings fail (second
conjunct: the fully finished state is reachable). -/
theorem C2_failure_isolation (sp : Bool) (K : Nat) (outcomes : List Bool)
    (hK : 0 < K) :
    gather true (taskResults outcomes) = Except.ok (taskResults outcomes) ∧
    Reach sp outcomes (initSched K outcomes.length)
      (finalSched sp K outcomes) :=
  ⟨rfl, reach_finalSched sp K hK outcomes⟩

theorem C2_failure_isolation_witness :
    0 < 1 ∧
    (gather true (taskResults [true, false]) =
      Except.ok (taskResults [true, false]) ∧
    Reach true [true, false] (initSched 1 2)
      (finalSched true 1 [true, false])) :=
  ⟨Nat.one_pos, C2_failure_isolation true 1 [true, false] Nat.one_pos⟩

/-- C1 counterexample: a batch of N = 1 dispatched transfer run with
progress reporting enabled whose single transfer raises: the run reaches
the terminal state in which every task has finished, yet the overall
counter ends at 0 and not at N = 1, because bound_download_one only reaches
pbar.update(1) after download_one returns without raising. -/
theorem C1_cex_failed_transfer_not_counted :
    Reach true [false] (initSched 5 1) (finalSched true 5 [false]) ∧
    (∀ p ∈ (finalSched true 5 [false]).phases,
      p = Phase.doneOk ∨ p = Phase.doneErr) ∧
    (finalSched true 5 [false]).pbar = 0 ∧ (0 : Nat) ≠ 1 :=
  ⟨reach_finalSched true 5 (by decide) [false], by decide, rfl, by decide⟩

theorem countp_isOk_eq_countTrue :
    ∀ (ps : List Phase) (os : List Bool), ps.length = os.length →
      (∀ (i : Nat) (hi : i < ps.length),
        (ps.get ⟨i, hi⟩ = Phase.doneOk → outcomeAt os i = true) ∧
        (ps.get ⟨i, hi⟩ = Phase.doneErr → outcomeAt os i = false)) →
      (∀ p ∈ ps, p = Phase.doneOk ∨ p = Phase.doneErr) →
      countp isOk ps = countTrue os
  | [], [], _, _, _ => rfl
  | [], o :: os, hlen, _, _ => by simp at hlen
  | p :: ps, [], hlen, _, _ => by simp at hlen
  | p :: ps, o :: os, hlen, hcs, hterm => by
    have hl : ps.length = os.length := by simpa using hlen
    have hcs' : ∀ (i : Nat) (hi : i < ps.length),
        (ps.get ⟨i, hi⟩ = Phase.doneOk → outcomeAt os i = true) ∧
        (ps.get ⟨i, hi⟩ = Phase.doneErr → outcomeAt os i = false) :=
      fun i hi => hcs (i + 1) (Nat.succ_lt_succ hi)
    have hterm' : ∀ q ∈ ps, q = Phase.doneOk ∨ q = Phase.doneErr :=
      fun q hq => hterm q (List.mem_cons_of_mem p hq)
    have ih := countp_isOk_eq_countTrue ps os hl hcs' hterm'
    have hhead := hcs 0 (Nat.succ_pos ps.length)
    rcases hterm p (List.mem_cons_self p ps) with hOk | hErr
    · subst hOk
      have ho : o = true := hhead.1 rfl
      subst ho
      simp [countp, countTrue, isOk, ih]
    · subst hErr
      have ho : o = false := hhead.2 rfl
      subst ho
      simp [countp, countTrue, isOk, ih]

/-- C1 corrected: in every terminal reachable state of a batch of N
dispatched transfers, the overall counter equals the number of transfers
that completed successfully when progress reporting is enabled (and stays 0
otherwise), not the number dispatched: a transfer that raises never runs
the pbar.update(1) call, so each failure leaves the counter one short of
the dispatched count. -/
theorem C1_final_counter_eq_successes (sp : Bool) (outcomes : List Bool)
    (K : Nat) (s : Sched)
    (h : Reach sp outcomes (initSched K outcomes.length) s)
    (hterm : ∀ p ∈ s.phases, p = Phase.doneOk ∨ p = Phase.doneErr) :
    s.pbar = if sp then countTrue outcomes else 0 := by
  have hinv := schedInv_reach sp outcomes K s h
  rw [hinv.pbar_eq]
  cases sp
  · rfl
  · have := countp_isOk_eq_countTrue s.phases outcomes hinv.len_eq
      hinv.consis hterm
    simpa using this

theorem C1_final_counter_eq_successes_witness :
    (finalSched true 1 [true, false]).pbar =
      if true then countTrue [true, false] else 0 :=
  C1_final_counter_eq_successes true [true, false] 1
    (finalSched true 1 [true, false])
    (reach_finalSched true 1 Nat.one_pos [true, false]) (by decide)
